import Mathlib

set_option linter.unusedVariables false

/-! Verification of the banshee execution engine (src/banshee/src/engine.rs).

This file gives a shallow embedding of the engine: the `Engine` record with
its atomic `exit_code` / `had_error` and the global memory map, the per-hart
`Cpu` record, the runtime callbacks invoked by the translated binary
(`binary_load`, `binary_store`, `binary_csr_read`, `binary_csr_write`, the
three abort callbacks), the ELF section preload performed by
`translate_elf`, the Cpu allocation performed by `execute_inner`, and the
result computation of `execute` after all hart threads have joined.
LLVM handles, logging and threading are elided; the trace output of the
load/store callbacks is modelled as structured `TraceEvent` data so that
statements about what the `size` argument influences remain meaningful. -/

/-- Byte-addressed global memory holding 32-bit words
(models `Mutex<HashMap<u64, u32>>`; a missing key is `none`). -/
abbrev Mem : Type := Nat → Option Nat

/-- The execution engine state (engine.rs lines 21-44, LLVM handles elided). -/
structure Engine where
  exit_code : Nat
  had_error : Bool
  opt_llvm : Bool
  opt_jit : Bool
  trace : Bool
  base_hartid : Nat
  num_cores : Nat
  num_clusters : Nat
  memory : Mem

/-- Engine::new configuration defaults (engine.rs lines 83-96). -/
def Engine.new : Engine where
  exit_code := 0
  had_error := false
  opt_llvm := true
  opt_jit := true
  trace := false
  base_hartid := 0
  num_cores := 1
  num_clusters := 1
  memory := fun _ => none

/-- State of a single CPU core (engine.rs lines 470-481); the SSR and DMA
engine states are opaque to the engine and modelled as plain numbers. -/
structure CpuState where
  regs : List Nat
  fregs : List Nat
  pc : Nat
  instret : Nat
  ssrs : Nat × Nat
  ssr_enable : Nat
  dma : Nat

/-- Default (all-zero) CpuState, as produced by `Default::default()`. -/
def CpuState.default : CpuState where
  regs := List.replicate 32 0
  fregs := List.replicate 32 0
  pc := 0
  instret := 0
  ssrs := (0, 0)
  ssr_enable := 0
  dma := 0

/-- The per-hart CPU record passed into the translated binary
(engine.rs lines 342-351); `tcdm` models the target of `tcdm_ptr`. -/
structure Cpu where
  state : CpuState
  tcdm : List Nat
  hartid : Nat
  num_cores : Nat
  cluster_base_hartid : Nat

/-- Cpu::new (engine.rs lines 355-370): a CPU in the default state. -/
def Cpu.new (tcdm : List Nat) (hartid num_cores cluster_base_hartid : Nat) : Cpu where
  state := CpuState.default
  tcdm := tcdm
  hartid := hartid
  num_cores := num_cores
  cluster_base_hartid := cluster_base_hartid

/-- One line of the runtime load/store trace log, as structured data; the
`bits` field records the `8 << size` width the source prints. -/
inductive TraceEvent where
  | load (addr : Nat) (bits : Nat)
  | store (addr : Nat) (value : Nat) (bits : Nat)
deriving DecidableEq

/-- HashMap::insert on the global memory map. -/
def insertWord (mem : Mem) (addr value : Nat) : Mem :=
  fun a => if a = addr then some value else mem a

/-- The five magic MMIO addresses decoded by `binary_load` / `binary_store`. -/
def magicAddrs : List Nat :=
  [0x40000000, 0x40000008, 0x40000010, 0x40000020, 0x40000040]

/-- Cpu::binary_load (engine.rs lines 372-389): the value returned together
with the trace line emitted. `as u32` casts are modelled as `% 2 ^ 32`. -/
def binary_load (e : Engine) (c : Cpu) (addr size : Nat) : Nat × TraceEvent :=
  (if addr = 0x40000000 then 0x000000
   else if addr = 0x40000008 then 0x020000
   else if addr = 0x40000010 then c.num_cores % 2 ^ 32
   else if addr = 0x40000020 then e.exit_code
   else if addr = 0x40000040 then c.cluster_base_hartid % 2 ^ 32
   else (e.memory addr).getD 0,
   TraceEvent.load addr (8 <<< size))

/-- Cpu::binary_store (engine.rs lines 391-407): the updated engine state
together with the trace line emitted. -/
def binary_store (e : Engine) (c : Cpu) (addr value size : Nat) :
    Engine × TraceEvent :=
  (if addr = 0x40000000 then e
   else if addr = 0x40000008 then e
   else if addr = 0x40000010 then e
   else if addr = 0x40000020 then { e with exit_code := value }
   else if addr = 0x40000040 then e
   else { e with memory := insertWord e.memory addr value },
   TraceEvent.store addr value (8 <<< size))

/-- Cpu::binary_csr_read (engine.rs lines 409-416). -/
def binary_csr_read (c : Cpu) (csr : Nat) : Nat :=
  if csr = 0x7C0 then c.state.ssr_enable
  else if csr = 0xF14 then c.hartid % 2 ^ 32
  else 0

/-- Cpu::binary_csr_write (engine.rs lines 418-424). -/
def binary_csr_write (c : Cpu) (csr value : Nat) : Cpu :=
  if csr = 0x7C0 then { c with state := { c.state with ssr_enable := value } }
  else c

/-- Cpu::binary_abort_escape (engine.rs lines 426-429): the full mutable
footprint reachable from `&self` is the engine (via the shared reference)
and the Cpu itself; the callback only sets `had_error`. -/
def binary_abort_escape (e : Engine) (c : Cpu) (addr : Nat) : Engine × Cpu :=
  ({ e with had_error := true }, c)

/-- Cpu::binary_abort_illegal_inst (engine.rs lines 431-438). -/
def binary_abort_illegal_inst (e : Engine) (c : Cpu) (addr inst_raw : Nat) :
    Engine × Cpu :=
  ({ e with had_error := true }, c)

/-- Cpu::binary_abort_illegal_branch (engine.rs lines 440-446). -/
def binary_abort_illegal_branch (e : Engine) (c : Cpu) (addr target : Nat) :
    Engine × Cpu :=
  ({ e with had_error := true }, c)

/-- The value `execute_inner` returns once all hart threads have joined
(engine.rs lines 295-299). -/
def execute_result (e : Engine) : Except String Nat :=
  if e.had_error then Except.error ("Encountered an error during execution")
  else Except.ok (e.exit_code >>> 1)

/-- An engine-visible operation a hart can perform while running. -/
inductive HartOp where
  | store (addr value size : Nat)
  | abortEscape (addr : Nat)
  | abortIllegalInst (addr inst_raw : Nat)
  | abortIllegalBranch (addr target : Nat)

/-- Effect of one hart operation on the engine state. -/
def runOp (e : Engine) (c : Cpu) : HartOp → Engine
  | .store addr value size => (binary_store e c addr value size).1
  | .abortEscape addr => (binary_abort_escape e c addr).1
  | .abortIllegalInst addr inst_raw => (binary_abort_illegal_inst e c addr inst_raw).1
  | .abortIllegalBranch addr target => (binary_abort_illegal_branch e c addr target).1

/-- Effect of a whole sequence of hart operations on the engine state. -/
def runOps (e : Engine) (c : Cpu) (ops : List HartOp) : Engine :=
  ops.foldl (fun acc op => runOp acc c op) e

/-- Specification-side recorder: the last value stored to MMIO address
0x4000_0020 in the sequence, or `init` if there is none. -/
def lastExitCode (init : Nat) : List HartOp → Nat
  | [] => init
  | HartOp.store addr value _ :: rest =>
      lastExitCode (if addr = 0x40000020 then value else init) rest
  | HartOp.abortEscape _ :: rest => lastExitCode init rest
  | HartOp.abortIllegalInst _ _ :: rest => lastExitCode init rest
  | HartOp.abortIllegalBranch _ _ :: rest => lastExitCode init rest

/-- Specification-side test: is the operation one of the three aborts? -/
def isAbort : HartOp → Bool
  | .store _ _ _ => false
  | .abortEscape _ => true
  | .abortIllegalInst _ _ => true
  | .abortIllegalBranch _ _ => true

lemma binary_store_had_error (e : Engine) (c : Cpu) (addr value size : Nat) :
    (binary_store e c addr value size).1.had_error = e.had_error := by
  simp only [binary_store]
  split_ifs <;> rfl

lemma binary_store_exit_code (e : Engine) (c : Cpu) (addr value size : Nat) :
    (binary_store e c addr value size).1.exit_code
      = if addr = 0x40000020 then value else e.exit_code := by
  simp only [binary_store]
  split_ifs <;> simp_all

lemma runOps_exit_code (ops : List HartOp) : ∀ (e : Engine) (c : Cpu),
    (runOps e c ops).exit_code = lastExitCode e.exit_code ops := by
  induction ops with
  | nil => intro e c; rfl
  | cons op rest ih =>
      intro e c
      cases op with
      | store addr value size =>
          show (runOps (runOp e c (.store addr value size)) c rest).exit_code = _
          rw [ih]
          simp [runOp, lastExitCode, binary_store_exit_code]
      | abortEscape addr =>
          show (runOps (runOp e c (.abortEscape addr)) c rest).exit_code = _
          rw [ih]
          simp [runOp, lastExitCode, binary_abort_escape]
      | abortIllegalInst addr inst_raw =>
          show (runOps (runOp e c (.abortIllegalInst addr inst_raw)) c rest).exit_code = _
          rw [ih]
          simp [runOp, lastExitCode, binary_abort_illegal_inst]
      | abortIllegalBranch addr target =>
          show (runOps (runOp e c (.abortIllegalBranch addr target)) c rest).exit_code = _
          rw [ih]
          simp [runOp, lastExitCode, binary_abort_illegal_branch]

lemma runOps_had_error (ops : List HartOp) : ∀ (e : Engine) (c : Cpu),
    (runOps e c ops).had_error = (e.had_error || ops.any isAbort) := by
  induction ops with
  | nil => intro e c; simp [runOps]
  | cons op rest ih =>
      intro e c
      cases op with
      | store addr value size =>
          show (runOps (runOp e c (.store addr value size)) c rest).had_error = _
          rw [ih]
          simp [runOp, isAbort, binary_store_had_error]
      | abortEscape addr =>
          show (runOps (runOp e c (.abortEscape addr)) c rest).had_error = _
          rw [ih]
          simp [runOp, isAbort, binary_abort_escape]
      | abortIllegalInst addr inst_raw =>
          show (runOps (runOp e c (.abortIllegalInst addr inst_raw)) c rest).had_error = _
          rw [ih]
          simp [runOp, isAbort, binary_abort_illegal_inst]
      | abortIllegalBranch addr target =>
          show (runOps (runOp e c (.abortIllegalBranch addr target)) c rest).had_error = _
          rw [ih]
          simp [runOp, isAbort, binary_abort_illegal_branch]

/-- C1: after any sequence of hart operations, the `exit_code` of the engine is
the last value stored to MMIO address 0x4000_0020 (or the initial one if
none was stored), `had_error` is set exactly when an abort occurred, and
`execute` returns `Ok (exit_code >>> 1)` when `had_error` is false and a
generic execution error when it is true, regardless of stored values. -/
theorem execute_exit_code_contract (e : Engine) (c : Cpu) (ops : List HartOp) :
    (runOps e c ops).exit_code = lastExitCode e.exit_code ops ∧
    (runOps e c ops).had_error = (e.had_error || ops.any isAbort) ∧
    execute_result (runOps e c ops)
      = (if e.had_error || ops.any isAbort then
          Except.error ("Encountered an error during execution")
        else Except.ok (lastExitCode e.exit_code ops >>> 1)) := by
  refine ⟨runOps_exit_code ops e c, runOps_had_error ops e c, ?_⟩
  unfold execute_result
  rw [runOps_exit_code ops e c, runOps_had_error ops e c]

/-- C9: each abort callback sets `had_error` and changes nothing else: the
exit code, the global memory map and the whole Cpu record (its CpuState and
its TCDM included) are left untouched, and the callback returns normally. -/
theorem abort_sets_had_error_only (e : Engine) (c : Cpu)
    (addr inst_raw target : Nat) :
    binary_abort_escape e c addr = ({ e with had_error := true }, c) ∧
    (binary_abort_escape e c addr).1.had_error = true ∧
    (binary_abort_escape e c addr).1.exit_code = e.exit_code ∧
    (binary_abort_escape e c addr).1.memory = e.memory ∧
    (binary_abort_escape e c addr).2.state = c.state ∧
    (binary_abort_escape e c addr).2.tcdm = c.tcdm ∧
    binary_abort_illegal_inst e c addr inst_raw = ({ e with had_error := true }, c) ∧
    binary_abort_illegal_branch e c addr target = ({ e with had_error := true }, c) :=
  ⟨rfl, rfl, rfl, rfl, rfl, rfl, rfl, rfl⟩

/-- C2: loads from the four configuration MMIO addresses are pure functions
of the configuration (independent of the engine state, hence of any prior
store), the load from 0x4000_0020 returns the current exit code, stores to
the four read-only magic addresses leave the engine unchanged, a store to
0x4000_0020 sets the exit code, and any other address falls through to the
global memory map. -/
theorem mmio_contract (e : Engine) (c : Cpu) (addr value size : Nat)
    (h : addr ∉ magicAddrs)
    (h1 : c.num_cores < 2 ^ 32) (h2 : c.cluster_base_hartid < 2 ^ 32) :
    (binary_load e c 0x40000000 size).1 = 0x000000 ∧
    (binary_load e c 0x40000008 size).1 = 0x020000 ∧
    (binary_load e c 0x40000010 size).1 = c.num_cores ∧
    (binary_load e c 0x40000020 size).1 = e.exit_code ∧
    (binary_load e c 0x40000040 size).1 = c.cluster_base_hartid ∧
    (binary_store e c 0x40000000 value size).1 = e ∧
    (binary_store e c 0x40000008 value size).1 = e ∧
    (binary_store e c 0x40000010 value size).1 = e ∧
    (binary_store e c 0x40000040 value size).1 = e ∧
    (binary_store e c 0x40000020 value size).1 = { e with exit_code := value } ∧
    (binary_load e c addr size).1 = (e.memory addr).getD 0 ∧
    (binary_store e c addr value size).1
      = { e with memory := insertWord e.memory addr value } := by
  simp only [magicAddrs, List.mem_cons, List.not_mem_nil, or_false, not_or] at h
  obtain ⟨n0, n8, n10, n20, n40⟩ := h
  refine ⟨rfl, rfl, ?_, rfl, ?_, rfl, rfl, rfl, rfl, rfl, ?_, ?_⟩
  · simp only [binary_load]
    norm_num
    omega
  · simp only [binary_load]
    norm_num
    omega
  · simp [binary_load, n0, n8, n10, n20, n40]
  · simp [binary_store, n0, n8, n10, n20, n40]

/-- Concrete hart used to instantiate per-Cpu theorems. -/
def cpu0 : Cpu := Cpu.new [] 0 1 0

/-- Witness for C2 at a concrete non-MMIO address. -/
theorem mmio_contract_witness :
    (binary_load Engine.new cpu0 0x40000000 2).1 = 0x000000 ∧
    (binary_load Engine.new cpu0 0x40000008 2).1 = 0x020000 ∧
    (binary_load Engine.new cpu0 0x40000010 2).1 = cpu0.num_cores ∧
    (binary_load Engine.new cpu0 0x40000020 2).1 = Engine.new.exit_code ∧
    (binary_load Engine.new cpu0 0x40000040 2).1 = cpu0.cluster_base_hartid ∧
    (binary_store Engine.new cpu0 0x40000000 9 2).1 = Engine.new ∧
    (binary_store Engine.new cpu0 0x40000008 9 2).1 = Engine.new ∧
    (binary_store Engine.new cpu0 0x40000010 9 2).1 = Engine.new ∧
    (binary_store Engine.new cpu0 0x40000040 9 2).1 = Engine.new ∧
    (binary_store Engine.new cpu0 0x40000020 9 2).1
      = { Engine.new with exit_code := 9 } ∧
    (binary_load Engine.new cpu0 0x1000 2).1 = (Engine.new.memory 0x1000).getD 0 ∧
    (binary_store Engine.new cpu0 0x1000 9 2).1
      = { Engine.new with memory := insertWord Engine.new.memory 0x1000 9 } :=
  mmio_contract Engine.new cpu0 0x1000 9 2 (by decide) (by norm_num [cpu0, Cpu.new])
    (by norm_num [cpu0, Cpu.new])

/-- C3: on any non-MMIO address and from any prior memory state, a store
followed by a load (with any size arguments) returns the stored value; and
a load from an address that is absent from the global memory map (never
stored, not preloaded) returns 0. -/
theorem store_load_roundtrip (e : Engine) (c : Cpu) (addr value s1 s2 : Nat)
    (h : addr ∉ magicAddrs) :
    (binary_load (binary_store e c addr value s1).1 c addr s2).1 = value ∧
    (e.memory addr = none → (binary_load e c addr s2).1 = 0) := by
  simp only [magicAddrs, List.mem_cons, List.not_mem_nil, or_false, not_or] at h
  obtain ⟨n0, n8, n10, n20, n40⟩ := h
  constructor
  · simp [binary_load, binary_store, insertWord, n0, n8, n10, n20, n40]
  · intro h2
    simp [binary_load, n0, n8, n10, n20, n40, h2]

/-- Witness for C3 at a concrete non-MMIO address, starting from a memory
that already holds a value there: the second store overwrites the first
and the load returns the newly stored value. -/
theorem store_load_roundtrip_witness :
    (binary_load (binary_store (binary_store Engine.new cpu0 0x2000 3 0).1
        cpu0 0x2000 7 0).1 cpu0 0x2000 2).1 = 7 ∧
    ((binary_store Engine.new cpu0 0x2000 3 0).1.memory 0x2000 = none →
      (binary_load (binary_store Engine.new cpu0 0x2000 3 0).1 cpu0 0x2000 2).1 = 0) :=
  store_load_roundtrip (binary_store Engine.new cpu0 0x2000 3 0).1 cpu0
    0x2000 7 0 2 (by decide)

/-- C6: CSR 0x7C0 reads the current `ssr_enable`, CSR 0xF14 reads the
hartid of this hart, any CSR other than those two reads 0; writing 0x7C0
and reading it back returns the written value, and a write to any CSR
other than 0x7C0 (0xF14 included) leaves the Cpu unchanged, without
fault. -/
theorem csr_contract (c : Cpu) (csr value : Nat)
    (h1 : c.hartid < 2 ^ 32) (h2 : csr ≠ 0x7C0) :
    binary_csr_read c 0x7C0 = c.state.ssr_enable ∧
    binary_csr_read c 0xF14 = c.hartid ∧
    (csr ≠ 0xF14 → binary_csr_read c csr = 0) ∧
    binary_csr_read (binary_csr_write c 0x7C0 value) 0x7C0 = value ∧
    binary_csr_write c csr value = c := by
  refine ⟨rfl, ?_, ?_, rfl, ?_⟩
  · simp only [binary_csr_read]
    norm_num
    omega
  · intro h3
    simp [binary_csr_read, h2, h3]
  · simp [binary_csr_write, h2]

/-- Concrete hart with a nonzero hartid for the CSR witness. -/
def cpu5 : Cpu := Cpu.new [] 5 4 4

/-- Witness for C6 at hartid 5 and CSR number 0xF14: in particular a write
to the read-only mhartid CSR is ignored. -/
theorem csr_contract_witness :
    binary_csr_read cpu5 0x7C0 = 0 ∧
    binary_csr_read cpu5 0xF14 = 5 ∧
    ((0xF14 : Nat) ≠ 0xF14 → binary_csr_read cpu5 0xF14 = 0) ∧
    binary_csr_read (binary_csr_write cpu5 0x7C0 42) 0x7C0 = 42 ∧
    binary_csr_write cpu5 0xF14 42 = cpu5 :=
  csr_contract cpu5 0xF14 42 (by norm_num [cpu5, Cpu.new]) (by decide)

/-- An ELF section as far as the preload loop is concerned: `alloc` models
`(shdr.flags & SHF_ALLOC) != 0`, `addr` the virtual address, `data` the raw
bytes. -/
structure ElfSection where
  alloc : Bool
  addr : Nat
  data : List Nat
deriving DecidableEq

/-- Little-endian 32-bit word assembled from four bytes, as
`read_u32::<LittleEndian>` computes it. -/
def leWord (b0 b1 b2 b3 : Nat) : Nat :=
  b0 + 256 * b1 + 65536 * b2 + 16777216 * b3

/-- The chunk loop of the ELF preload (engine.rs lines 164-175): walk the
section bytes in chunks of 4, inserting the little-endian word of each
chunk at `base + offset * 4`; a trailing chunk of fewer than 4 bytes fails
the `read_u32` and is stored as `unwrap_or(0)`. -/
def preloadData (base : Nat) : Nat → Mem → List Nat → Mem
  | _offset, mem, [] => mem
  | offset, mem, [_b0] => insertWord mem (base + offset * 4) 0
  | offset, mem, [_b0, _b1] => insertWord mem (base + offset * 4) 0
  | offset, mem, [_b0, _b1, _b2] => insertWord mem (base + offset * 4) 0
  | offset, mem, b0 :: b1 :: b2 :: b3 :: rest =>
      preloadData base (offset + 1)
        (insertWord mem (base + offset * 4) (leWord b0 b1 b2 b3)) rest

/-- One iteration of the preload loop of `translate_elf` (engine.rs lines
158-176): sections without the ALLOC flag are skipped, ALLOC sections
extend the memory map chunk-wise. -/
def preloadSection (mem : Mem) (s : ElfSection) : Mem :=
  if s.alloc then preloadData s.addr 0 mem s.data else mem

/-- The whole memory-preload step of `translate_elf` (engine.rs lines
155-177), over the list of ELF sections in file order. -/
def translate_elf_preload (mem : Mem) (sections : List ElfSection) : Mem :=
  sections.foldl preloadSection mem

lemma preloadData_frame : ∀ (n : Nat) (data : List Nat), data.length ≤ n →
    ∀ (mem : Mem) (base offset a : Nat),
    (∀ j, 4 * j < data.length → a ≠ base + (offset + j) * 4) →
    preloadData base offset mem data a = mem a := by
  intro n
  induction n with
  | zero =>
      intro data hlen mem base offset a h
      have hd : data = [] := List.eq_nil_of_length_eq_zero (Nat.le_zero.mp hlen)
      subst hd
      rfl
  | succ n ih =>
      intro data hlen mem base offset a h
      rcases data with _ | ⟨b0, _ | ⟨b1, _ | ⟨b2, _ | ⟨b3, rest⟩⟩⟩⟩
      · rfl
      · have hne : a ≠ base + offset * 4 := by
          have := h 0 (by simp)
          simpa using this
        simp [preloadData, insertWord, hne]
      · have hne : a ≠ base + offset * 4 := by
          have := h 0 (by simp)
          simpa using this
        simp [preloadData, insertWord, hne]
      · have hne : a ≠ base + offset * 4 := by
          have := h 0 (by simp)
          simpa using this
        simp [preloadData, insertWord, hne]
      · have hne : a ≠ base + offset * 4 := by
          have := h 0 (by simp)
          simpa using this
        have hrest : rest.length ≤ n := by
          simp only [List.length_cons] at hlen
          omega
        have hrec := ih rest hrest
          (insertWord mem (base + offset * 4) (leWord b0 b1 b2 b3)) base (offset + 1) a
          (by
            intro j hj
            have h2 := h (j + 1) (by simp only [List.length_cons]; omega)
            intro heq
            exact h2 (by omega))
        simp only [preloadData]
        rw [hrec]
        simp [insertWord, hne]

lemma preloadData_hit : ∀ (n : Nat) (data : List Nat), data.length ≤ n →
    ∀ (mem : Mem) (base offset k : Nat), 4 * k + 4 ≤ data.length →
    preloadData base offset mem data (base + (offset + k) * 4)
      = some (leWord (data.getD (4 * k) 0) (data.getD (4 * k + 1) 0)
          (data.getD (4 * k + 2) 0) (data.getD (4 * k + 3) 0)) := by
  intro n
  induction n with
  | zero =>
      intro data hlen mem base offset k hk
      omega
  | succ n ih =>
      intro data hlen mem base offset k hk
      rcases data with _ | ⟨b0, _ | ⟨b1, _ | ⟨b2, _ | ⟨b3, rest⟩⟩⟩⟩
      · simp at hk
      · simp at hk
      · simp at hk
      · simp at hk
      · rcases k with _ | k
        · simp only [preloadData]
          rw [preloadData_frame n rest
            (by simp only [List.length_cons] at hlen; omega)
            _ base (offset + 1) (base + (offset + 0) * 4)
            (by intro j hj; omega)]
          simp [insertWord]
        · have harg : base + (offset + (k + 1)) * 4 = base + ((offset + 1) + k) * 4 := by
            ring
          rw [harg]
          simp only [preloadData]
          rw [ih rest (by simp only [List.length_cons] at hlen; omega)
            _ base (offset + 1) k
            (by simp only [List.length_cons] at hk; omega)]
          have hpeel : ∀ (m : Nat) (x0 x1 x2 x3 : Nat) (l : List Nat),
              (x0 :: x1 :: x2 :: x3 :: l).getD (m + 4) 0 = l.getD m 0 := by
            intro m x0 x1 x2 x3 l
            rfl
          have e0 : 4 * (k + 1) = 4 * k + 4 := by ring
          have e1 : 4 * k + 4 + 1 = (4 * k + 1) + 4 := by ring
          have e2 : 4 * k + 4 + 2 = (4 * k + 2) + 4 := by ring
          have e3 : 4 * k + 4 + 3 = (4 * k + 3) + 4 := by ring
          rw [e0, e1, e2, e3, hpeel, hpeel, hpeel, hpeel]

lemma preloadData_hit_partial : ∀ (n : Nat) (data : List Nat), data.length ≤ n →
    ∀ (mem : Mem) (base offset k : Nat),
    4 * k < data.length → data.length < 4 * k + 4 →
    preloadData base offset mem data (base + (offset + k) * 4) = some 0 := by
  intro n
  induction n with
  | zero =>
      intro data hlen mem base offset k hk1 hk2
      omega
  | succ n ih =>
      intro data hlen mem base offset k hk1 hk2
      rcases data with _ | ⟨b0, _ | ⟨b1, _ | ⟨b2, _ | ⟨b3, rest⟩⟩⟩⟩
      · simp at hk1
      · simp only [List.length_cons, List.length_nil] at hk1
        have hk0 : k = 0 := by omega
        subst hk0
        simp [preloadData, insertWord]
      · simp only [List.length_cons, List.length_nil] at hk1
        have hk0 : k = 0 := by omega
        subst hk0
        simp [preloadData, insertWord]
      · simp only [List.length_cons, List.length_nil] at hk1
        have hk0 : k = 0 := by omega
        subst hk0
        simp [preloadData, insertWord]
      · simp only [List.length_cons] at hk1 hk2 hlen
        rcases k with _ | k
        · omega
        · have harg : base + (offset + (k + 1)) * 4 = base + ((offset + 1) + k) * 4 := by
            ring
          rw [harg]
          simp only [preloadData]
          exact ih rest (by omega) _ base (offset + 1) k (by omega) (by omega)

lemma preloadSection_frame (mem : Mem) (s : ElfSection) (a : Nat)
    (h : s.alloc = true → ∀ j, 4 * j < s.data.length → a ≠ s.addr + 4 * j) :
    preloadSection mem s a = mem a := by
  unfold preloadSection
  rcases hs : s.alloc with _ | _
  · rfl
  · exact preloadData_frame s.data.length s.data le_rfl mem s.addr 0 a
      (by intro j hj heq; exact h hs j hj (by omega))

lemma preload_fold_frame (sections : List ElfSection) : ∀ (mem : Mem) (a : Nat),
    (∀ t ∈ sections, t.alloc = true → ∀ j, 4 * j < t.data.length → a ≠ t.addr + 4 * j) →
    translate_elf_preload mem sections a = mem a := by
  induction sections with
  | nil => intro mem a h; rfl
  | cons s rest ih =>
      intro mem a h
      show translate_elf_preload (preloadSection mem s) rest a = mem a
      rw [ih (preloadSection mem s) a (fun t ht => h t (List.mem_cons_of_mem s ht))]
      exact preloadSection_frame mem s a (h s (List.mem_cons_self s rest))

/-- C5: after the preload of `translate_elf`, every full 4-byte chunk of an
ALLOC section (at an address no later alloc section overwrites) is in the
global memory as the little-endian 32-bit word of its bytes; a trailing
chunk of fewer than 4 bytes is stored as 0 (the failed `read_u32` is
`unwrap_or(0)`); and a section whose ALLOC flag is clear contributes no
keys at all. -/
theorem translate_elf_preload_alloc (mem m : Mem) (pre post : List ElfSection)
    (s t : ElfSection) (k k2 : Nat)
    (h1 : s.alloc = true) (h2 : 4 * k + 4 ≤ s.data.length)
    (h3 : ∀ u ∈ post, u.alloc = true → ∀ j, 4 * j < u.data.length →
            s.addr + 4 * k ≠ u.addr + 4 * j)
    (h4 : t.alloc = false)
    (h6 : 4 * k2 < s.data.length) (h7 : s.data.length < 4 * k2 + 4)
    (h8 : ∀ u ∈ post, u.alloc = true → ∀ j, 4 * j < u.data.length →
            s.addr + 4 * k2 ≠ u.addr + 4 * j) :
    translate_elf_preload mem (pre ++ s :: post) (s.addr + 4 * k)
      = some (leWord (s.data.getD (4 * k) 0) (s.data.getD (4 * k + 1) 0)
          (s.data.getD (4 * k + 2) 0) (s.data.getD (4 * k + 3) 0)) ∧
    translate_elf_preload mem (pre ++ s :: post) (s.addr + 4 * k2) = some 0 ∧
    preloadSection m t = m := by
  have step1 : translate_elf_preload mem (pre ++ s :: post)
      = translate_elf_preload
          (preloadSection (translate_elf_preload mem pre) s) post := by
    unfold translate_elf_preload
    rw [List.foldl_append, List.foldl_cons]
  refine ⟨?_, ?_, ?_⟩
  · rw [step1, preload_fold_frame post _ _ h3]
    unfold preloadSection
    rw [if_pos h1]
    have harg : s.addr + 4 * k = s.addr + (0 + k) * 4 := by ring
    rw [harg]
    exact preloadData_hit s.data.length s.data le_rfl _ s.addr 0 k h2
  · rw [step1, preload_fold_frame post _ _ h8]
    unfold preloadSection
    rw [if_pos h1]
    have harg : s.addr + 4 * k2 = s.addr + (0 + k2) * 4 := by ring
    rw [harg]
    exact preloadData_hit_partial s.data.length s.data le_rfl _ s.addr 0 k2 h6 h7
  · unfold preloadSection
    rw [if_neg (by simp [h4])]

/-- Concrete ALLOC section of width 6 (one full chunk, one trailing
2-byte chunk) used for the C5 witness. -/
def elfSecA : ElfSection := ⟨true, 100, [1, 2, 3, 4, 5, 6]⟩

/-- Concrete non-ALLOC section used for the C5 witness. -/
def elfSecN : ElfSection := ⟨false, 0, [9]⟩

/-- Witness for C5: the first chunk of a concrete section lands at
address 100 as the little-endian word 0x04030201, its trailing 2-byte
chunk lands at 104 as 0, and a non-ALLOC section leaves the memory
untouched. -/
theorem translate_elf_preload_alloc_witness :
    translate_elf_preload (fun _ => none) [elfSecA] 100 = some 0x04030201 ∧
    translate_elf_preload (fun _ => none) [elfSecA] 104 = some 0 ∧
    preloadSection (fun _ => none) elfSecN = (fun _ => none) := by
  have h := translate_elf_preload_alloc (fun _ => none) (fun _ => none) [] []
    elfSecA elfSecN 0 1 rfl (by norm_num [elfSecA])
    (fun u hu => absurd hu (List.not_mem_nil u)) rfl
    (by norm_num [elfSecA]) (by norm_num [elfSecA])
    (fun u hu => absurd hu (List.not_mem_nil u))
  exact ⟨h.1.trans rfl, h.2.1, h.2.2⟩

lemma insertWord_aligned (mem : Mem) (k v : Nat)
    (hm : ∀ b, mem b ≠ none → 4 ∣ b) (hk : 4 ∣ k) :
    ∀ b, insertWord mem k v b ≠ none → 4 ∣ b := by
  intro b hb
  by_cases hbk : b = k
  · subst hbk; exact hk
  · exact hm b (by simpa [insertWord, hbk] using hb)

lemma preloadData_aligned : ∀ (n : Nat) (data : List Nat), data.length ≤ n →
    ∀ (mem : Mem) (base offset : Nat), 4 ∣ base →
    (∀ b, mem b ≠ none → 4 ∣ b) →
    ∀ a, preloadData base offset mem data a ≠ none → 4 ∣ a := by
  intro n
  induction n with
  | zero =>
      intro data hlen mem base offset hb hm a ha
      have hd : data = [] := List.eq_nil_of_length_eq_zero (Nat.le_zero.mp hlen)
      subst hd
      exact hm a ha
  | succ n ih =>
      intro data hlen mem base offset hb hm a ha
      have hkey : 4 ∣ base + offset * 4 := Nat.dvd_add hb (dvd_mul_left 4 offset)
      rcases data with _ | ⟨b0, _ | ⟨b1, _ | ⟨b2, _ | ⟨b3, rest⟩⟩⟩⟩
      · exact hm a ha
      · exact insertWord_aligned mem _ _ hm hkey a ha
      · exact insertWord_aligned mem _ _ hm hkey a ha
      · exact insertWord_aligned mem _ _ hm hkey a ha
      · exact ih rest (by simp only [List.length_cons] at hlen; omega)
          _ base (offset + 1) hb
          (insertWord_aligned mem _ _ hm hkey) a ha

lemma preloadSection_aligned (mem : Mem) (s : ElfSection)
    (hm : ∀ b, mem b ≠ none → 4 ∣ b) (hs : s.alloc = true → 4 ∣ s.addr) :
    ∀ a, preloadSection mem s a ≠ none → 4 ∣ a := by
  intro a ha
  unfold preloadSection at ha
  rcases hal : s.alloc with _ | _
  · rw [hal] at ha; simp at ha; exact hm a ha
  · rw [hal] at ha; simp at ha
    exact preloadData_aligned s.data.length s.data le_rfl mem s.addr 0 (hs hal) hm a ha

lemma preload_sections_aligned (sections : List ElfSection) : ∀ (mem : Mem),
    (∀ b, mem b ≠ none → 4 ∣ b) →
    (∀ s ∈ sections, s.alloc = true → 4 ∣ s.addr) →
    ∀ a, translate_elf_preload mem sections a ≠ none → 4 ∣ a := by
  induction sections with
  | nil => intro mem hm hs a ha; exact hm a ha
  | cons s rest ih =>
      intro mem hm hs a ha
      exact ih (preloadSection mem s)
        (preloadSection_aligned mem s hm (hs s (List.mem_cons_self s rest)))
        (fun t ht => hs t (List.mem_cons_of_mem s ht)) a ha

/-- C4 (amended): word-alignment of the keys of the global memory map is
preserved by `binary_store` when the stored address is word-aligned, and by
the ELF preload when the virtual address of every ALLOC section is word-aligned;
a load of a key absent from the map (at a non-MMIO address) reads as 0.
(As literally stated the claim fails: `binary_store` inserts the raw store
address as a key, so a store to a misaligned address breaks the invariant;
see the counterexample.) -/
theorem memory_keys_aligned (e : Engine) (c : Cpu) (addr value size a : Nat)
    (sections : List ElfSection)
    (hm : ∀ b, e.memory b ≠ none → 4 ∣ b)
    (ha : 4 ∣ addr)
    (hs : ∀ s ∈ sections, s.alloc = true → 4 ∣ s.addr) :
    ((binary_store e c addr value size).1.memory a ≠ none → 4 ∣ a) ∧
    (translate_elf_preload e.memory sections a ≠ none → 4 ∣ a) ∧
    (a ∉ magicAddrs → e.memory a = none → (binary_load e c a size).1 = 0) := by
  refine ⟨?_, ?_, ?_⟩
  · intro hmem
    have : ∀ b, (binary_store e c addr value size).1.memory b ≠ none → 4 ∣ b := by
      simp only [binary_store]
      split_ifs
      · exact hm
      · exact hm
      · exact hm
      · exact hm
      · exact hm
      · exact insertWord_aligned e.memory addr value hm ha
    exact this a hmem
  · exact fun hmem => preload_sections_aligned sections e.memory hm hs a hmem
  · intro h5 h6
    simp only [magicAddrs, List.mem_cons, List.not_mem_nil, or_false, not_or] at h5
    obtain ⟨n0, n8, n10, n20, n40⟩ := h5
    simp [binary_load, n0, n8, n10, n20, n40, h6]

/-- Counterexample for C4 as literally stated: starting from the empty
(hence trivially all-aligned) memory of a fresh engine, a single
`binary_store` to address 1 inserts the misaligned key 1, so the
word-alignment invariant is not preserved by every `binary_store`. -/
theorem store_breaks_alignment :
    (∀ b, Engine.new.memory b ≠ none → 4 ∣ b) ∧
    (binary_store Engine.new cpu0 1 7 0).1.memory 1 = some 7 ∧
    ¬ (4 ∣ 1) := by
  refine ⟨fun b hb => absurd rfl hb, rfl, by omega⟩

/-- Concrete word-aligned ALLOC section for the C4 witness. -/
def elfSecB : ElfSection := ⟨true, 4, [1, 2, 3, 4]⟩

/-- Witness for the amended C4 at concrete aligned inputs. -/
theorem memory_keys_aligned_witness :
    ((binary_store Engine.new cpu0 8 3 0).1.memory 8 ≠ none → 4 ∣ 8) ∧
    (translate_elf_preload Engine.new.memory [elfSecB] 8 ≠ none → 4 ∣ 8) ∧
    (8 ∉ magicAddrs → Engine.new.memory 8 = none →
      (binary_load Engine.new cpu0 8 0).1 = 0) :=
  memory_keys_aligned Engine.new cpu0 8 3 0 8 [elfSecB]
    (fun b hb => absurd rfl hb) (by omega)
    (by
      intro s hmem
      rw [List.mem_singleton] at hmem
      subst hmem
      intro _
      exact ⟨1, rfl⟩)

/-- Cpu allocation of execute_inner (engine.rs lines 244-256): one Cpu per
(cluster, core) pair in row-major order, with hartids assigned from the
base hartid of the cluster. -/
def mkCpus (e : Engine) (tcdms : List (List Nat)) : List Cpu :=
  ((List.range e.num_clusters).flatMap fun j =>
      (List.range e.num_cores).map fun i => (j, i)).map fun ji =>
    let base_hartid := e.base_hartid + ji.1 * e.num_cores
    Cpu.new (tcdms.getD ji.1 []) (base_hartid + ji.2) e.num_cores base_hartid

lemma flatMap_const_length {α β : Type} (xs : List α) (g : α → List β) (m : Nat)
    (hg : ∀ x, (g x).length = m) : (xs.flatMap g).length = xs.length * m := by
  induction xs with
  | nil => simp
  | cons x xs ih =>
      rw [List.flatMap_cons, List.length_append, hg, ih, List.length_cons]
      ring

lemma flatMap_const_length_getElem {α β : Type} (xs : List α) (g : α → List β)
    (m : Nat) (hg : ∀ x, (g x).length = m) :
    ∀ (q i : Nat), i < m →
    (xs.flatMap g)[q * m + i]? = xs[q]?.bind fun x => (g x)[i]? := by
  induction xs with
  | nil => intro q i hi; simp
  | cons x xs ih =>
      intro q i hi
      rw [List.flatMap_cons]
      rcases q with _ | q
      · have h0 : 0 * m + i = i := by ring
        rw [h0, List.getElem?_append_left (by rw [hg x]; exact hi)]
        simp
      · have hq : (q + 1) * m + i = (g x).length + (q * m + i) := by rw [hg]; ring
        rw [hq, List.getElem?_append_right (Nat.le_add_right _ _),
          Nat.add_sub_cancel_left, ih q i hi]
        simp

/-- C7: `execute` creates `num_clusters * num_cores` Cpu records, and the
Cpu for cluster j, core i (at row-major position `j * num_cores + i`) has
hartid `base_hartid + j * num_cores + i` and cluster base hartid
`base_hartid + j * num_cores`. -/
theorem mkCpus_hartids (e : Engine) (tcdms : List (List Nat)) (j i : Nat)
    (hj : j < e.num_clusters) (hi : i < e.num_cores) :
    (mkCpus e tcdms).length = e.num_clusters * e.num_cores ∧
    ((mkCpus e tcdms)[j * e.num_cores + i]?).map Cpu.hartid
      = some (e.base_hartid + j * e.num_cores + i) ∧
    ((mkCpus e tcdms)[j * e.num_cores + i]?).map Cpu.cluster_base_hartid
      = some (e.base_hartid + j * e.num_cores) := by
  have hg : ∀ jj : Nat,
      ((List.range e.num_cores).map fun ii => (jj, ii)).length = e.num_cores := by
    intro jj
    simp
  refine ⟨?_, ?_, ?_⟩
  · unfold mkCpus
    rw [List.length_map, flatMap_const_length _ _ _ hg, List.length_range]
  · unfold mkCpus
    rw [List.getElem?_map, flatMap_const_length_getElem _ _ _ hg j i hi,
      List.getElem?_range hj]
    simp [List.getElem?_range hi, Cpu.new]
  · unfold mkCpus
    rw [List.getElem?_map, flatMap_const_length_getElem _ _ _ hg j i hi,
      List.getElem?_range hj]
    simp [List.getElem?_range hi, Cpu.new]

/-- The three-cluster scenario configuration of the specification:
`num_clusters = 3`, `num_cores = 4`, `base_hartid = 8`. -/
def engineScenario : Engine :=
  { Engine.new with base_hartid := 8, num_cores := 4, num_clusters := 3 }

/-- Witness for C7: in the three-cluster scenario, the Cpu at cluster 2,
core 1 (position 9) has hartid 17 and cluster base hartid 16. -/
theorem mkCpus_hartids_witness :
    (mkCpus engineScenario []).length = 12 ∧
    ((mkCpus engineScenario [])[9]?).map Cpu.hartid = some 17 ∧
    ((mkCpus engineScenario [])[9]?).map Cpu.cluster_base_hartid = some 16 := by
  have h := mkCpus_hartids engineScenario [] 2 1 (by decide) (by decide)
  exact h

/-- Engine configuration with zero harts (`num_clusters * num_cores = 0`). -/
def engineZeroHarts : Engine :=
  { Engine.new with num_cores := 0, num_clusters := 2 }

/-- C8 (evaluation at the failing input): with zero harts the Cpu vector is
empty — so position 0, which `execute_inner` reads in its trace logging,
does not exist — while the post-join result computation yields `Ok 0` with
`had_error` false. -/
theorem execute_zero_harts :
    mkCpus engineZeroHarts [] = [] ∧
    (mkCpus engineZeroHarts [])[0]? = none ∧
    execute_result engineZeroHarts = Except.ok 0 ∧
    engineZeroHarts.had_error = false :=
  ⟨rfl, rfl, rfl, rfl⟩

/-- C10: the `size` argument of `binary_load` / `binary_store` influences
only the emitted trace line, never the value loaded or the resulting engine
state. -/
theorem load_store_size_only_trace (e : Engine) (c : Cpu)
    (addr value s1 s2 : Nat) :
    (binary_load e c addr s1).1 = (binary_load e c addr s2).1 ∧
    (binary_store e c addr value s1).1 = (binary_store e c addr value s2).1 ∧
    (binary_load e c addr s1).2 = TraceEvent.load addr (8 <<< s1) ∧
    (binary_store e c addr value s1).2 = TraceEvent.store addr value (8 <<< s1) :=
  ⟨rfl, rfl, rfl, rfl⟩
